import Mathlib

/-!
Verification development for the claude-conversation-extractor repository.

The Python sources are embedded shallowly: JSON values parsed from the
JSONL session files are modelled by the inductive type `Json`; each
relevant Python function is translated into a Lean function over that
model.  File and terminal I/O is out of scope; the functions modelled
here are the pure computations the specification claims describe
(entry filtering, text recovery, filename construction, cache
eviction, search composition, export dispatch, statistics).

Conventions used throughout:
* Python dictionaries are association lists with distinct keys
  (as produced by a JSON parser).
* Python floats that arise from division are modelled by `Rat`
  (the quantities involved are exact quotients of integers).
* Timestamps parsed by `datetime.fromisoformat` are modelled either by
  an abstract parse parameter returning seconds (statistics) or by a
  concrete date-component parser (filenames), as each claim requires.
* A Python exception that a caller catches and turns into a dropped
  entry is modelled by `Option`: `none` is the raised-and-caught case.
-/


/-- A JSON value, as produced by parsing one line of a session file. -/
inductive Json where
  | null
  | bool (b : Bool)
  | num (n : Int)
  | str (s : String)
  | arr (items : List Json)
  | obj (fields : List (String × Json))

/-- Lookup in a Python dict modelled as an association list: `d.get(key)`. -/
def dictGet : List (String × Json) → String → Option Json
  | [], _ => none
  | (k, v) :: rest, key => if k = key then some v else dictGet rest key

/-- `d.get(key, default)`. -/
def dictGetD (fs : List (String × Json)) (key : String) (dflt : Json) : Json :=
  (dictGet fs key).getD dflt

/-- Python `value == "s"` for an optional JSON value: true exactly when the
value is present and is the string `s`. -/
def optIsStr (o : Option Json) (s : String) : Bool :=
  match o with
  | some (.str t) => t = s
  | _ => false

mutual
/-- Python `repr` of a parsed-JSON value (dict/list/str/int/bool/None). -/
def pyRepr : Json → String
  | .null => "None"
  | .bool true => "True"
  | .bool false => "False"
  | .num n => toString n
  | .str s => "'" ++ s ++ "'"
  | .arr xs => "[" ++ pyReprItems xs ++ "]"
  | .obj fs => "\x7b" ++ pyReprFields fs ++ "\x7d"

/-- Comma-separated reprs of list items. -/
def pyReprItems : List Json → String
  | [] => ""
  | [x] => pyRepr x
  | x :: y :: rest => pyRepr x ++ ", " ++ pyReprItems (y :: rest)

/-- Comma-separated reprs of dict entries. -/
def pyReprFields : List (String × Json) → String
  | [] => ""
  | [(k, v)] => "'" ++ k ++ "': " ++ pyRepr v
  | (k, v) :: kv :: rest => "'" ++ k ++ "': " ++ pyRepr v ++ ", " ++ pyReprFields (kv :: rest)
end

/-- Python `str` of a parsed-JSON value: identity on strings, `repr`-like otherwise. -/
def pyStr : Json → String
  | .str s => s
  | j => pyRepr j

/-- Python whitespace, for `str.strip` (the ASCII part; the session files
are produced by a JSON serializer and contain no exotic spaces). -/
def isPySpace (c : Char) : Bool :=
  c = ' ' ∨ c = '\t' ∨ c = '\n' ∨ c = '\r' ∨ c = '\x0b' ∨ c = '\x0c'

/-- Python `str.strip()`: drop leading and trailing whitespace. -/
def pyStrip (s : String) : String :=
  String.mk (((s.data.dropWhile isPySpace).reverse.dropWhile isPySpace).reverse)

/-- Python `s[:n]` (slicing counts code points, as Lean chars do). -/
def pyTake (s : String) (n : Nat) : String :=
  String.mk (s.data.take n)

/-- Python `s.startswith(pre)`. -/
def pyStartsWith (s pre : String) : Bool :=
  List.isPrefixOf pre.data s.data

/-- Python truthiness of a parsed-JSON value. -/
def pyTruthy : Json → Bool
  | .null => false
  | .bool b => b
  | .num n => n != 0
  | .str s => s != ""
  | .arr xs => !xs.isEmpty
  | .obj fs => !fs.isEmpty

/-!
## Basic extraction (`extract_claude_logs.py`)

`ClaudeConversationExtractor._extract_text_content` and
`extract_conversation`.
-/

/-- The strings contributed by `text`-typed blocks of a content list
(`_extract_text_content`, list branch).  `none` models the `TypeError`
raised by `"\n".join` when some `text` field holds a non-string value
(the caller catches it and drops the entry). -/
def textBlockParts : List Json → Option (List String)
  | [] => some []
  | item :: rest =>
    match item with
    | .obj fs =>
      if optIsStr (dictGet fs "type") "text" then
        match dictGetD fs "text" (.str "") with
        | .str s => (textBlockParts rest).map (fun l => s :: l)
        | _ => none
      else textBlockParts rest
    | _ => textBlockParts rest

/-- `ClaudeConversationExtractor._extract_text_content`: a string passes
through; a list yields the newline-join of its `text`-typed blocks;
anything else is stringified. -/
def extractTextContent : Json → Option String
  | .str s => some s
  | .arr items => (textBlockParts items).map (String.intercalate "\n")
  | j => some (pyStr j)

/-- One flattened message of the basic extraction. -/
structure Message where
  role : String
  content : String
  timestamp : Json

/-- The per-entry body of `extract_conversation`: `none` when the entry is
skipped (wrong type, missing or non-dict message, role mismatch,
whitespace-only text, or a caught per-entry exception). -/
def extractEntry (entry : Json) : Option Message :=
  match entry with
  | .obj fs =>
    if optIsStr (dictGet fs "type") "user" ∧ (dictGet fs "message").isSome then
      match dictGet fs "message" with
      | some (.obj mfs) =>
        if optIsStr (dictGet mfs "role") "user" then
          match extractTextContent (dictGetD mfs "content" (.str "")) with
          | some text =>
            if text ≠ "" ∧ pyStrip text ≠ "" then
              some ⟨"user", text, dictGetD fs "timestamp" (.str "")⟩
            else none
          | none => none
        else none
      | _ => none
    else if optIsStr (dictGet fs "type") "assistant" ∧ (dictGet fs "message").isSome then
      match dictGet fs "message" with
      | some (.obj mfs) =>
        if optIsStr (dictGet mfs "role") "assistant" then
          match extractTextContent (dictGetD mfs "content" (.arr [])) with
          | some text =>
            if text ≠ "" ∧ pyStrip text ≠ "" then
              some ⟨"assistant", text, dictGetD fs "timestamp" (.str "")⟩
            else none
          | none => none
        else none
      | _ => none
    else none
  | _ => none

/-- `ClaudeConversationExtractor.extract_conversation` over the parsed
lines of a session file.  Each element is one line: `none` is a line
whose JSON parse failed (`json.JSONDecodeError`, skipped). -/
def extractConversation (lines : List (Option Json)) : List Message :=
  match lines with
  | [] => []
  | none :: rest => extractConversation rest
  | some e :: rest =>
    match extractEntry e with
    | some m => m :: extractConversation rest
    | none => extractConversation rest

/-!
## C2: specification-side kept-entry rule

Written from the words of the claim: an entry is kept exactly when its
type is user or assistant, its message is a record whose role equals
the entry type, and the recovered text is non-empty after trimming; the
kept message carries that role, the recovered text, and the timestamp
field (empty string when absent).
-/

/-- The kept-entry rule as the specification states it. -/
def specKeep (entry : Json) : Option Message :=
  match entry with
  | .obj fs =>
    match dictGet fs "type" with
    | some (.str t) =>
      if t = "user" ∨ t = "assistant" then
        match dictGet fs "message" with
        | some (.obj mfs) =>
          if optIsStr (dictGet mfs "role") t then
            match extractTextContent (dictGetD mfs "content" (.str "")) with
            | some text =>
              if pyStrip text ≠ "" then
                some ⟨t, text, dictGetD fs "timestamp" (.str "")⟩
              else none
            | none => none
          else none
        | _ => none
      else none
    | _ => none
  | _ => none

/-!
## C1: `save_as_markdown` filename (`extract_claude_logs.py` lines 161-203)
-/

/-- `ts.replace("Z", "+00:00")` (the pattern is a single character). -/
def pyReplaceZ (s : String) : String :=
  String.mk (s.data.flatMap (fun c => if c = 'Z' then ['+', '0', '0', ':', '0', '0'] else [c]))

/-- Days in a month, with the Gregorian leap rule, as `datetime` validates. -/
def daysInMonth (y m : Nat) : Nat :=
  if m = 2 then (if (y % 4 = 0 ∧ y % 100 ≠ 0) ∨ y % 400 = 0 then 29 else 28)
  else if m = 4 ∨ m = 6 ∨ m = 9 ∨ m = 11 then 30 else 31

/-- Numeric value of a decimal digit character. -/
def digitVal (c : Char) : Nat := c.toNat - 48

/-- Model of
`datetime.fromisoformat(ts.replace("Z", "+00:00")).strftime("%Y-%m-%d")`:
the date component of the timestamp when it parses, `none` when parsing
raises.  The date component is validated in full; the tail is checked
for shape only (empty, or a `T` or space separator followed by the time
of day), which covers every timestamp format the assistant writes. -/
def parseIsoDate (ts : String) : Option String :=
  match (pyReplaceZ ts).data with
  | y1 :: y2 :: y3 :: y4 :: '-' :: m1 :: m2 :: '-' :: d1 :: d2 :: rest =>
    if y1.isDigit ∧ y2.isDigit ∧ y3.isDigit ∧ y4.isDigit ∧
       m1.isDigit ∧ m2.isDigit ∧ d1.isDigit ∧ d2.isDigit then
      let y := ((digitVal y1 * 10 + digitVal y2) * 10 + digitVal y3) * 10 + digitVal y4
      let m := digitVal m1 * 10 + digitVal m2
      let d := digitVal d1 * 10 + digitVal d2
      if 1 ≤ m ∧ m ≤ 12 ∧ 1 ≤ d ∧ d ≤ daysInMonth y m ∧
         (rest = [] ∨ rest.head? = some 'T' ∨ rest.head? = some ' ') then
        some (String.mk [y1, y2, y3, y4, '-', m1, m2, '-', d1, d2])
      else none
    else none
  | _ => none

/-- The `date_str` that `save_as_markdown` derives (lines 168-181): the
first message timestamp feeds the filename date when it is a truthy
string that parses; any falsy value, non-string value (whose `.replace`
raises, caught by the `except`), or parse failure falls back to today. -/
def saveDateStr (first_timestamp : Json) (today : String) : String :=
  if pyTruthy first_timestamp then
    match first_timestamp with
    | .str s => (parseIsoDate s).getD today
    | _ => today
  else today

/-- The output filename of `save_as_markdown` (line 183), `none` when the
conversation is empty (the function returns `None` before writing). -/
def saveAsMarkdownFilename (conversation : List Message) (sessionId today : String) :
    Option String :=
  match conversation with
  | [] => none
  | m :: _ =>
    some ("claude-conversation-" ++ saveDateStr m.timestamp today ++ "-" ++
      pyTake sessionId 8 ++ ".md")

/-!
## C4: real-time search cache eviction
(`realtime_search.py`, `RealTimeSearch.trigger_search`, lines 455-468)
-/

/-- The cache-eviction step of `trigger_search`: every cached key `k`
with `not k.startswith(new_query)` is collected into `keys_to_remove`
and deleted; deleting those keys from the dict is retaining the keys
that start with the new query. -/
def triggerSearchEvict {α : Type} (cache : List (String × α)) (newQuery : String) :
    List (String × α) :=
  cache.filter (fun kv => pyStartsWith kv.1 newQuery)

/-!
## C8: stdout truncation in the detailed transcript
(`detailed_export.py`, `save_detailed_markdown`, lines 352-361)
-/

/-- `MAX_CONTENT_DISPLAY` (detailed_export.py line 20). -/
def MAX_CONTENT_DISPLAY : Nat := 2000

/-- `TRUNCATION_INDICATOR` (detailed_export.py line 23). -/
def TRUNCATION_INDICATOR : String := "\n... (truncated)"

/-- The text written between the code fences for a tool-result stdout:
the first 2000 characters plus the truncation indicator when longer
than 2000 characters, the full stdout otherwise. -/
def renderStdout (stdout : String) : String :=
  if stdout.length > MAX_CONTENT_DISPLAY then
    pyTake stdout MAX_CONTENT_DISPLAY ++ TRUNCATION_INDICATOR
  else stdout

/-- The whole `**Output:**` section written for a tool-result message
carrying stdout `s`; skipped entirely when `s` is falsy (empty). -/
def stdoutSection (s : String) : String :=
  if s ≠ "" then "**Output:**\n```\n" ++ renderStdout s ++ "\n```\n\n" else ""

/-!
## C3: detailed extraction of user entries
(`detailed_export.py`, `DetailedTranscriptExtractor._process_user_entry`,
lines 123-175, and `_extract_text_content`, lines 244-260)
-/

/-- The detailed extractor's `_extract_text_content` list scan: unlike the
basic one it also collects plain string items.  `none` models the
`TypeError` raised by the join when a `text` field is not a string. -/
def textPartsD : List Json → Option (List String)
  | [] => some []
  | item :: rest =>
    match item with
    | .obj fs =>
      if optIsStr (dictGet fs "type") "text" then
        match dictGetD fs "text" (.str "") with
        | .str s => (textPartsD rest).map (fun l => s :: l)
        | _ => none
      else textPartsD rest
    | .str s => (textPartsD rest).map (fun l => s :: l)
    | _ => textPartsD rest

/-- `DetailedTranscriptExtractor._extract_text_content`. -/
def extractTextContentD : Json → Option String
  | .str s => some s
  | .arr items => (textPartsD items).map (String.intercalate "\n")
  | j => some (pyStr j)

/-- A tool-result detailed message (the fields assembled at lines 154-164). -/
structure ToolResultMsg where
  tool_use_id : Option Json
  content : Json
  is_error : Json
  stdout : Option Json
  stderr : Option Json
  is_image : Json
  interrupted : Json
  timestamp : Option Int

/-- The two shapes `_process_user_entry` can return. -/
inductive DetailedUserMsg where
  | user (content : String) (timestamp : Option Int)
  | toolResult (r : ToolResultMsg)

/-- The content-scanning loop of `_process_user_entry` (lines 146-168).
The working value starts as the whole content list.  A string item is
skipped by the first branch (`continue`), so the final
`elif isinstance(item, str)` arm is unreachable; a `tool_result` block
returns immediately (`Sum.inl`); a `text` block overwrites the working
value with its `text` field. -/
def scanUserItems (cur : Json) : List Json → Json ⊕ Json
  | [] => .inr cur
  | item :: rest =>
    match item with
    | .str _ => scanUserItems cur rest
    | .obj fs =>
      if optIsStr (dictGet fs "type") "tool_result" then .inl (.obj fs)
      else if optIsStr (dictGet fs "type") "text" then
        scanUserItems (dictGetD fs "text" (.str "")) rest
      else scanUserItems cur rest
    | _ => scanUserItems cur rest

/-- `DetailedTranscriptExtractor._process_user_entry`.  The `timestamp`
argument is the already-parsed entry timestamp.  `none` models an
exception that the caller catches (the line is skipped with a
warning). -/
def processUserEntry (entry : List (String × Json)) (ts : Option Int) :
    Option DetailedUserMsg :=
  match dictGet entry "message" with
  | some (.str s) => some (.user s ts)
  | some (.obj mfs) =>
    let content := dictGetD mfs "content" (.str "")
    match content with
    | .arr items =>
      match scanUserItems (.arr items) items with
      | .inl (.obj ifs) =>
        match dictGet entry "toolUseResult" with
        | some (.obj trd) =>
          some (.toolResult ⟨dictGet ifs "tool_use_id", dictGetD ifs "content" (.str ""),
            dictGetD ifs "is_error" (.bool false), dictGet trd "stdout", dictGet trd "stderr",
            dictGetD trd "isImage" (.bool false), dictGetD trd "interrupted" (.bool false), ts⟩)
        | none =>
          some (.toolResult ⟨dictGet ifs "tool_use_id", dictGetD ifs "content" (.str ""),
            dictGetD ifs "is_error" (.bool false), none, none,
            .bool false, .bool false, ts⟩)
        | some _ => none
      | .inl _ => none
      | .inr cur => (extractTextContentD cur).map (fun t => .user t ts)
    | _ => (extractTextContentD content).map (fun t => .user t ts)
  | some j => some (.user (if pyTruthy j then pyStr j else "") ts)
  | none => some (.user "" ts)

/-- Is an item a `tool_result`-typed block? -/
def isToolResultItem : Json → Bool
  | .obj fs => optIsStr (dictGet fs "type") "tool_result"
  | _ => false

/-- The `text` field of the LAST `text`-typed block of a content list,
if any block exists. -/
def lastTextBlockText : List Json → Option Json
  | [] => none
  | item :: rest =>
    match lastTextBlockText rest with
    | some v => some v
    | none =>
      match item with
      | .obj fs =>
        if optIsStr (dictGet fs "type") "text" then some (dictGetD fs "text" (.str ""))
        else none
      | _ => none

/-!
## C5: smart-search composition
(`realtime_search.py`, `create_smart_searcher`, lines 536-602)
-/

/-- One search result, reduced to the fields the composition reads:
the de-duplication key (`file_path`) and the sort key (`timestamp`,
`datetime.min` when absent, modelled by `none` ordered below every
value). -/
structure SearchResult where
  file_path : String
  timestamp : Option Int
deriving DecidableEq

/-- The de-duplicating extension step: `existing_paths` is the path set
of the accumulated results, computed once BEFORE the loop, and every
new result whose path is not in it is appended. -/
def addNewResults (acc new : List SearchResult) : List SearchResult :=
  acc ++ new.filter (fun r => !(acc.any (fun a => a.file_path == r.file_path)))

/-- The regex metacharacters tested by
`any(c in query for c in r".*+?[]{}()^$|\\")`. -/
def regexChars : List Char :=
  ['.', '*', '+', '?', '[', ']', '\x7b', '\x7d', '(', ')', '^', '$', '|', '\\']

/-- Does the query contain a regex metacharacter? -/
def regexCharPresent (query : String) : Bool :=
  query.data.any (fun c => regexChars.contains c)

/-- Timestamp order with `none` (absent, `datetime.min`) at the bottom. -/
def tsLe (a b : Option Int) : Bool :=
  match a, b with
  | none, _ => true
  | some _, none => false
  | some x, some y => x ≤ y

/-- Insert into a descending-sorted list, after every element with a
strictly greater key and before equal keys, which is where a stable
sort leaves an element arriving from earlier in the list. -/
def insertDescTs (x : SearchResult) : List SearchResult → List SearchResult
  | [] => [x]
  | y :: ys => if tsLe y.timestamp x.timestamp then x :: y :: ys else y :: insertDescTs x ys

/-- `results.sort(key=..., reverse=True)`: Python list.sort is stable;
a stable sort is a unique function of the key order, modelled here by
stable insertion sort, descending by timestamp. -/
def sortByTimestampDesc : List SearchResult → List SearchResult
  | [] => []
  | x :: xs => insertDescTs x (sortByTimestampDesc xs)

/-- The de-duplicated union built by `smart_search` before sorting:
exact results first, then conditionally regex, then smart, then
conditionally semantic, each batch filtered against the paths already
present. -/
def smartUnion (query : String) (exactR regexR smartR semanticR : List SearchResult)
    (hasSemantic : Bool) : List SearchResult :=
  let r1 := exactR
  let r2 := if regexCharPresent query then addNewResults r1 regexR else r1
  let r3 := addNewResults r2 smartR
  let r4 := if hasSemantic then addNewResults r3 semanticR else r3
  r4

/-- `create_smart_searcher`: union, then stable sort by timestamp
descending, then truncation to `max_results` (default 20). -/
def smartSearch (query : String) (exactR regexR smartR semanticR : List SearchResult)
    (hasSemantic : Bool) (maxResults : Nat) : List SearchResult :=
  (sortByTimestampDesc (smartUnion query exactR regexR smartR semanticR hasSemantic)).take
    maxResults

/-!
## C6: export manager format dispatch
(`export_formats.py`, `ExportManager.export`, lines 382-406)
-/

/-- Python `str.lower()` (ASCII range; format names are ASCII). -/
def pyLower (s : String) : String :=
  String.mk (s.data.map Char.toLower)

/-- The keys of `self.exporters`, in construction order. -/
def exporterKeys : List String := ["markdown", "md", "json", "html"]

/-- The filename each renderer writes:
`claude-conversation-{today}-{session_id[:8]}.{ext}` (Markdown
renderer for both `markdown` and `md`). -/
def rendererFilename (key today sessionId : String) : String :=
  let ext := if key = "json" then "json" else if key = "html" then "html" else "md"
  "claude-conversation-" ++ today ++ "-" ++ pyTake sessionId 8 ++ "." ++ ext

/-- `ExportManager.export`: lower-case the requested format; raise
`ValueError` (modelled by `Except.error`, before any renderer runs, so
no file is written) when the key is unknown, else dispatch to the
renderer and return the written path. -/
def exportManagerExport (format today sessionId : String) : Except String String :=
  let format_lower := pyLower format
  if format_lower ∈ exporterKeys then
    .ok (rendererFilename format_lower today sessionId)
  else
    .error ("Unsupported format: " ++ format ++ ". Available: " ++
      String.intercalate ", " exporterKeys)

/-!
## Statistics (`conversation_stats.py`, `analyze_conversation`, lines 107-193)

The timestamp parser (`datetime.fromisoformat`) is abstracted as a
`parse` parameter returning seconds; the claims proved below hold for
every parse function.  Messages are dicts.  (A truthy non-string
timestamp value would make CPython raise an uncaught AttributeError in
`analyze_conversation`; the model treats such a value as unparseable.)
-/

/-- The per-conversation statistics record (dataclass ConversationStats).
Float-valued fields are exact rationals; times are seconds. -/
structure ConversationStats where
  session_id : String
  total_messages : Nat
  user_messages : Nat
  assistant_messages : Nat
  total_words : Nat
  total_chars : Nat
  estimated_tokens : Nat
  estimated_reading_time_minutes : Rat
  start_time : Option Int
  end_time : Option Int
  duration : Option Int
  average_message_length : Rat
  longest_message : Nat
  shortest_message : Nat
  messages_per_hour : Rat

/-- `_empty_stats` (lines 310-328). -/
def emptyStats (session_id : String) : ConversationStats :=
  ⟨session_id, 0, 0, 0, 0, 0, 0, 0, none, none, none, 0, 0, 0, 0⟩

/-- `len(content.split())`: number of maximal non-whitespace runs. -/
def pyWordCountAux : List Char → Bool → Nat
  | [], _ => 0
  | c :: rest, inWord =>
    if isPySpace c then pyWordCountAux rest false
    else (if inWord then 0 else 1) + pyWordCountAux rest true

/-- Python `len(s.split())`. -/
def pyWordCount (s : String) : Nat := pyWordCountAux s.data false

/-- The string-valued contents of a conversation, in order (the text
analysis loop looks only at messages whose `content` is a string). -/
def stringContents (conversation : List (List (String × Json))) : List String :=
  conversation.filterMap (fun msg =>
    match dictGetD msg "content" (.str "") with
    | .str s => some s
    | _ => none)

/-- The parseable timestamps of a conversation, in order: the time loop
skips messages whose `timestamp` is absent or falsy and those whose
parse raises. -/
def parsedTimestamps (parse : String → Option Int)
    (conversation : List (List (String × Json))) : List Int :=
  conversation.filterMap (fun msg =>
    match dictGet msg "timestamp" with
    | some (.str s) => if s ≠ "" then parse s else none
    | _ => none)

/-- The min/max tracking fold of the time-analysis loop (lines 144-156). -/
def tsFold : List Int → Option Int → Option Int → Option Int × Option Int
  | [], st, en => (st, en)
  | t :: rest, st, en =>
    let st2 := match st with
      | none => some t
      | some s => if t < s then some t else some s
    let en2 := match en with
      | none => some t
      | some e => if t > e then some t else some e
    tsFold rest st2 en2

/-- Python `max` over a non-empty list (the empty case is guarded). -/
def pyMaxNat : List Nat → Nat
  | [] => 0
  | a :: t => t.foldl max a

/-- Python `min` over a non-empty list (the empty case is guarded). -/
def pyMinNat : List Nat → Nat
  | [] => 0
  | a :: t => t.foldl min a

/-- `ConversationAnalyzer.analyze_conversation`. -/
def analyzeConversation (parse : String → Option Int)
    (conversation : List (List (String × Json))) (session_id : String) :
    ConversationStats :=
  if conversation.isEmpty then emptyStats session_id
  else
    let user_messages := conversation.countP (fun m => optIsStr (dictGet m "role") "user")
    let assistant_messages :=
      conversation.countP (fun m => optIsStr (dictGet m "role") "assistant")
    let contents := stringContents conversation
    let total_words := (contents.map pyWordCount).sum
    let total_chars := (contents.map String.length).sum
    let message_lengths := contents.map String.length
    let se := tsFold (parsedTimestamps parse conversation) none none
    let dur_mph : Option Int × Rat :=
      match se.1, se.2 with
      | some st, some en =>
        if 0 < en - st then
          (some (en - st), (conversation.length : Rat) / (((en - st : Int) : Rat) / 3600))
        else (some (en - st), 0)
      | _, _ => (none, 0)
    let avg : Rat := if message_lengths.isEmpty then 0
      else (message_lengths.sum : Rat) / (message_lengths.length : Rat)
    ⟨session_id, conversation.length, user_messages, assistant_messages, total_words,
     total_chars, total_chars / 4, (total_words : Rat) / 200, se.1, se.2,
     dur_mph.1, avg,
     if message_lengths.isEmpty then 0 else pyMaxNat message_lengths,
     if message_lengths.isEmpty then 0 else pyMinNat message_lengths,
     dur_mph.2⟩

/-!
## Theorems
-/

example : extractConversation
    [some (.obj [("type", .str "user"),
                 ("message", .obj [("role", .str "user"), ("content", .str "hi")]),
                 ("timestamp", .str "2024-01-01T00:00:00Z")]),
     none,
     some (.obj [("type", .str "assistant"),
                 ("message", .obj [("role", .str "assistant"),
                   ("content", .arr [.obj [("type", .str "text"), ("text", .str "hello")]])])])]
    = [⟨"user", "hi", .str "2024-01-01T00:00:00Z"⟩,
       ⟨"assistant", "hello", .str ""⟩] := rfl

theorem pyStrip_empty : pyStrip "" = "" := rfl

theorem keep_cond_iff (text : String) :
    (text ≠ "" ∧ pyStrip text ≠ "") ↔ pyStrip text ≠ "" := by
  constructor
  · rintro ⟨_, h⟩; exact h
  · intro h
    refine ⟨fun he => h ?_, h⟩
    subst he; exact pyStrip_empty

theorem extractEntry_eq_specKeep (e : Json) : extractEntry e = specKeep e := by
  cases e with
  | obj fs =>
    rcases htype : dictGet fs "type" with _ | jt
    · simp [extractEntry, specKeep, htype, optIsStr]
    · cases jt with
      | str t =>
        by_cases hu : t = "user"
        · subst hu
          rcases hmsg : dictGet fs "message" with _ | jm
          · simp [extractEntry, specKeep, htype, hmsg, optIsStr]
          · cases jm with
            | obj mfs =>
              simp only [extractEntry, specKeep, htype, hmsg, optIsStr]
              rcases hrole : dictGet mfs "role" with _ | jr
              · simp [hrole]
              · cases jr with
                | str r =>
                  by_cases hr : r = "user"
                  · subst hr
                    simp only [hrole]
                    rcases htext : extractTextContent (dictGetD mfs "content" (.str "")) with _ | text
                    · simp [htext]
                    · simp [htext, keep_cond_iff]
                  · simp [hrole, hr]
                | null => simp [hrole]
                | bool b => simp [hrole]
                | num n => simp [hrole]
                | arr xs => simp [hrole]
                | obj ofs => simp [hrole]
            | null => simp [extractEntry, specKeep, htype, hmsg, optIsStr]
            | bool b => simp [extractEntry, specKeep, htype, hmsg, optIsStr]
            | num n => simp [extractEntry, specKeep, htype, hmsg, optIsStr]
            | str s => simp [extractEntry, specKeep, htype, hmsg, optIsStr]
            | arr xs => simp [extractEntry, specKeep, htype, hmsg, optIsStr]
        · by_cases ha : t = "assistant"
          · subst ha
            rcases hmsg : dictGet fs "message" with _ | jm
            · simp [extractEntry, specKeep, htype, hmsg, optIsStr]
            · cases jm with
              | obj mfs =>
                simp only [extractEntry, specKeep, htype, hmsg, optIsStr]
                rcases hrole : dictGet mfs "role" with _ | jr
                · simp [hrole]
                · cases jr with
                  | str r =>
                    by_cases hr : r = "assistant"
                    · subst hr
                      simp only [hrole]
                      rcases hcont : dictGet mfs "content" with _ | c
                      · simp [hcont, dictGetD, extractTextContent, textBlockParts,
                              keep_cond_iff, pyStrip_empty, String.intercalate]
                      · rcases htext : extractTextContent (dictGetD mfs "content" (.arr [])) with _ | text
                        · simp only [dictGetD, hcont, Option.getD] at htext ⊢
                          simp [htext]
                        · simp only [dictGetD, hcont, Option.getD] at htext ⊢
                          simp [htext, keep_cond_iff]
                    · simp [hrole, hr]
                  | null => simp [hrole]
                  | bool b => simp [hrole]
                  | num n => simp [hrole]
                  | arr xs => simp [hrole]
                  | obj ofs => simp [hrole]
              | null => simp [extractEntry, specKeep, htype, hmsg, optIsStr]
              | bool b => simp [extractEntry, specKeep, htype, hmsg, optIsStr]
              | num n => simp [extractEntry, specKeep, htype, hmsg, optIsStr]
              | str s => simp [extractEntry, specKeep, htype, hmsg, optIsStr]
              | arr xs => simp [extractEntry, specKeep, htype, hmsg, optIsStr]
          · simp [extractEntry, specKeep, htype, optIsStr, hu, ha]
      | null => simp [extractEntry, specKeep, htype, optIsStr]
      | bool b => simp [extractEntry, specKeep, htype, optIsStr]
      | num n => simp [extractEntry, specKeep, htype, optIsStr]
      | arr xs => simp [extractEntry, specKeep, htype, optIsStr]
      | obj ofs => simp [extractEntry, specKeep, htype, optIsStr]
  | null => rfl
  | bool b => rfl
  | num n => rfl
  | str s => rfl
  | arr xs => rfl

/-- C2: `extract_conversation` returns exactly the entries whose type is
user or assistant, whose message is a record with role equal to the
entry type, and whose recovered text is non-empty after trimming, in
file line order, each carrying that role, the recovered text, and the
timestamp field (empty string when absent); malformed JSON lines
(`none`) and entries failing these conditions are dropped. -/
theorem extract_conversation_exact (lines : List (Option Json)) :
    extractConversation lines = lines.filterMap (fun o => o.bind specKeep) := by
  induction lines with
  | nil => rfl
  | cons hd tl ih =>
    cases hd with
    | none => simpa [extractConversation] using ih
    | some e =>
      cases h : extractEntry e with
      | none =>
        have hs : specKeep e = none := by rw [← extractEntry_eq_specKeep, h]
        simp [extractConversation, h, hs, ih]
      | some m =>
        have hs : specKeep e = some m := by rw [← extractEntry_eq_specKeep, h]
        simp [extractConversation, h, hs, ih]

/-!
## C10: content of other shapes is stringified, not dropped
-/

/-- C10: in basic extraction, a user or assistant entry whose message
content is neither a string nor a list is not dropped: its text is the
string form of the value (`str(content)`), and the message is kept
exactly when that string form is non-empty after trimming. -/
theorem extract_entry_stringified_content (fs mfs : List (String × Json)) (t : String) (c : Json)
    (htype : dictGet fs "type" = some (.str t))
    (ht : t = "user" ∨ t = "assistant")
    (hmsg : dictGet fs "message" = some (.obj mfs))
    (hrole : dictGet mfs "role" = some (.str t))
    (hcont : dictGet mfs "content" = some c)
    (hnotstr : ∀ s, c ≠ .str s) (hnotarr : ∀ xs, c ≠ .arr xs) :
    extractEntry (.obj fs) =
      (if pyStrip (pyStr c) ≠ "" then
        some ⟨t, pyStr c, dictGetD fs "timestamp" (.str "")⟩
      else none) := by
  rw [extractEntry_eq_specKeep]
  have hext : extractTextContent c = some (pyStr c) := by
    cases c with
    | str s => exact absurd rfl (hnotstr s)
    | arr xs => exact absurd rfl (hnotarr xs)
    | null => rfl
    | bool b => rfl
    | num n => rfl
    | obj ofs => rfl
  have hrt : optIsStr (dictGet mfs "role") t = true := by
    simp [hrole, optIsStr]
  simp only [specKeep, htype, hmsg, hrt, dictGetD, hcont, Option.getD, hext]
  rcases ht with h | h <;> subst h <;> simp

/-- Concrete instance of `extract_entry_stringified_content`: a user entry
whose content is the number 42 is kept with text "42". -/
theorem extract_entry_stringified_content_witness :
    dictGet [("role", Json.str "user"), ("content", Json.num 42)] "content" = some (.num 42) ∧
    extractEntry (.obj [("type", .str "user"),
        ("message", .obj [("role", .str "user"), ("content", .num 42)])]) =
      (if pyStrip (pyStr (.num 42)) ≠ "" then
        some ⟨"user", pyStr (.num 42),
          dictGetD [("type", Json.str "user"),
            ("message", .obj [("role", .str "user"), ("content", .num 42)])] "timestamp" (.str "")⟩
      else none) :=
  ⟨rfl,
   extract_entry_stringified_content _ _ "user" (.num 42) rfl (Or.inl rfl) rfl rfl rfl
     (fun _ h => Json.noConfusion h) (fun _ h => Json.noConfusion h)⟩

example : parseIsoDate "2024-01-15T10:00:00Z" = some "2024-01-15" := rfl

example : parseIsoDate "not a date" = none := rfl

example : parseIsoDate "2023-02-29T00:00:00Z" = none := rfl

/-- C1 counterexample: the filename date is NOT always the export day.
For a conversation whose first message carries the parseable timestamp
`2024-01-15T10:00:00Z`, exported on `2025-06-01`, the file is named
with the conversation date `2024-01-15`, not with today. -/
theorem save_as_markdown_filename_uses_conversation_date :
    saveAsMarkdownFilename [⟨"user", "hi", .str "2024-01-15T10:00:00Z"⟩]
        "abcdefgh12345" "2025-06-01" =
      some "claude-conversation-2024-01-15-abcdefgh.md" ∧
    saveAsMarkdownFilename [⟨"user", "hi", .str "2024-01-15T10:00:00Z"⟩]
        "abcdefgh12345" "2025-06-01" ≠
      some "claude-conversation-2025-06-01-abcdefgh.md" := by
  constructor
  · rfl
  · intro h
    rw [show saveAsMarkdownFilename [⟨"user", "hi", .str "2024-01-15T10:00:00Z"⟩]
        "abcdefgh12345" "2025-06-01" = some "claude-conversation-2024-01-15-abcdefgh.md"
      from rfl] at h
    simp at h

/-- C1 amended: the filename is
`claude-conversation-{date}-{first 8 chars of session_id}.md` where the
date is the date component of the first message timestamp whenever that
timestamp is a string that parses as ISO-8601, and the export day
(today) only when the timestamp is falsy, non-string, or unparseable. -/
theorem save_as_markdown_filename_amended (conv : List Message) (m : Message)
    (sessionId today : String) (h : conv.head? = some m) :
    (∀ s d, m.timestamp = .str s → parseIsoDate s = some d →
      saveAsMarkdownFilename conv sessionId today =
        some ("claude-conversation-" ++ d ++ "-" ++ pyTake sessionId 8 ++ ".md")) ∧
    (∀ s, m.timestamp = .str s → parseIsoDate s = none →
      saveAsMarkdownFilename conv sessionId today =
        some ("claude-conversation-" ++ today ++ "-" ++ pyTake sessionId 8 ++ ".md")) ∧
    ((∀ s, m.timestamp ≠ .str s) →
      saveAsMarkdownFilename conv sessionId today =
        some ("claude-conversation-" ++ today ++ "-" ++ pyTake sessionId 8 ++ ".md")) := by
  cases conv with
  | nil => simp at h
  | cons hd tl =>
    simp only [List.head?_cons, Option.some.injEq] at h
    subst h
    refine ⟨?_, ?_, ?_⟩
    · intro s d hs hp
      by_cases hse : s = ""
      · subst hse; simp [parseIsoDate, pyReplaceZ] at hp
      · simp [saveAsMarkdownFilename, saveDateStr, hs, pyTruthy, hse, hp]
    · intro s hs hp
      by_cases hse : s = ""
      · subst hse
        simp [saveAsMarkdownFilename, saveDateStr, hs, pyTruthy]
      · simp [saveAsMarkdownFilename, saveDateStr, hs, pyTruthy, hse, hp]
    · intro hns
      cases hts : hd.timestamp with
      | str s => exact absurd hts (hns s)
      | null => simp [saveAsMarkdownFilename, saveDateStr, hts, pyTruthy]
      | bool b =>
        cases b <;> simp [saveAsMarkdownFilename, saveDateStr, hts, pyTruthy]
      | num n =>
        by_cases hn : n = 0 <;>
          simp [saveAsMarkdownFilename, saveDateStr, hts, pyTruthy, hn]
      | arr xs =>
        cases xs <;> simp [saveAsMarkdownFilename, saveDateStr, hts, pyTruthy]
      | obj ofs =>
        cases ofs <;> simp [saveAsMarkdownFilename, saveDateStr, hts, pyTruthy]

/-- Concrete instance of `save_as_markdown_filename_amended`: a parseable
first timestamp yields the conversation date in the filename. -/
theorem save_as_markdown_filename_amended_witness :
    parseIsoDate "2024-01-15T10:00:00Z" = some "2024-01-15" ∧
    saveAsMarkdownFilename [⟨"user", "hi", .str "2024-01-15T10:00:00Z"⟩]
        "abcdefgh12345" "2025-06-01" =
      some ("claude-conversation-" ++ "2024-01-15" ++ "-" ++
        pyTake "abcdefgh12345" 8 ++ ".md") :=
  ⟨rfl,
   (save_as_markdown_filename_amended [⟨"user", "hi", .str "2024-01-15T10:00:00Z"⟩]
      ⟨"user", "hi", .str "2024-01-15T10:00:00Z"⟩ "abcdefgh12345" "2025-06-01" rfl).1
     "2024-01-15T10:00:00Z" "2024-01-15" rfl rfl⟩

/-- C4 counterexample: the entry keyed by the previously-seen query
`"ab"` has a key that IS a prefix of the new query `"abc"`, yet it is
evicted (the code keeps a key only when it starts with the new query,
the reverse direction). -/
theorem trigger_search_evicts_prefix_key :
    triggerSearchEvict [("ab", (0 : Nat))] "abc" = [] ∧
    pyStartsWith "abc" "ab" = true := by
  constructor
  · rfl
  · rfl

/-- C4 amended: after `trigger_search`, a cached entry is retained if
and only if the NEW QUERY is a prefix of the entry key (the key starts
with the new query); every entry whose key does not start with the new
query is evicted. -/
theorem trigger_search_cache_retention {α : Type} (cache : List (String × α))
    (newQuery k : String) (v : α) :
    (k, v) ∈ triggerSearchEvict cache newQuery ↔
      (k, v) ∈ cache ∧ pyStartsWith k newQuery = true := by
  simp [triggerSearchEvict, List.mem_filter]

/-- C8: a tool-result stdout longer than 2000 characters is rendered as
its first 2000 characters immediately followed by the literal marker
`"\n... (truncated)"`; a stdout of 2000 characters or fewer is rendered
in full, with nothing appended. -/
theorem stdout_truncation (s : String) (hne : s ≠ "") :
    (s.length > 2000 →
      stdoutSection s =
        "**Output:**\n```\n" ++ (pyTake s 2000 ++ "\n... (truncated)") ++ "\n```\n\n") ∧
    (s.length ≤ 2000 →
      stdoutSection s = "**Output:**\n```\n" ++ s ++ "\n```\n\n") := by
  constructor
  · intro hlong
    simp [stdoutSection, hne, renderStdout, MAX_CONTENT_DISPLAY, TRUNCATION_INDICATOR, hlong]
  · intro hshort
    have : ¬ s.length > 2000 := by omega
    simp [stdoutSection, hne, renderStdout, MAX_CONTENT_DISPLAY, this]

/-- Concrete instance of `stdout_truncation`: a 2500-character stdout is
truncated at 2000 characters and marked; a 5-character stdout is
rendered whole. -/
theorem stdout_truncation_witness :
    ((String.mk (List.replicate 2500 'x')).length > 2000 ∧
      stdoutSection (String.mk (List.replicate 2500 'x')) =
        "**Output:**\n```\n" ++ (pyTake (String.mk (List.replicate 2500 'x')) 2000 ++
          "\n... (truncated)") ++ "\n```\n\n") ∧
    (("hello" : String).length ≤ 2000 ∧
      stdoutSection "hello" = "**Output:**\n```\n" ++ "hello" ++ "\n```\n\n") := by
  have hlen : (String.mk (List.replicate 2500 'x')).length = 2500 := by
    show (List.replicate 2500 'x').length = 2500
    rw [List.length_replicate]
  have h1 : (String.mk (List.replicate 2500 'x')).length > 2000 := by

    rw [hlen]; omega
  have hne : String.mk (List.replicate 2500 'x') ≠ "" := by
    intro h
    rw [h] at hlen
    exact absurd hlen (by decide)
  refine ⟨⟨h1, (stdout_truncation _ hne).1 h1⟩, ⟨by decide, (stdout_truncation "hello" (by decide)).2 (by decide)⟩⟩

/-- C3 counterexample: in the content list
`[{"type": "text", "text": "A"}, "B"]` the last textual item is the
plain string `"B"`, yet the recovered user content is `"A"` — plain
string items never overwrite the working value (the scan skips them
with `continue` before the overwrite arm can run). -/
theorem process_user_entry_string_not_last_wins :
    processUserEntry
      [("message", .obj [("role", .str "user"),
        ("content", .arr [.obj [("type", .str "text"), ("text", .str "A")], .str "B"])])]
      none
      = some (.user "A" none) ∧ ("A" : String) ≠ "B" := by
  exact ⟨rfl, by decide⟩

theorem scanUserItems_no_toolresult (items : List Json) (cur : Json)
    (h : ∀ it ∈ items, isToolResultItem it = false) :
    scanUserItems cur items = .inr ((lastTextBlockText items).getD cur) := by
  induction items generalizing cur with
  | nil => rfl
  | cons item rest ih =>
    have hitem : isToolResultItem item = false := h item (List.mem_cons_self item rest)
    have hrest : ∀ it ∈ rest, isToolResultItem it = false :=
      fun it hit => h it (List.mem_cons_of_mem item hit)
    cases item with
    | str s =>
      simp only [scanUserItems, lastTextBlockText]
      rw [ih cur hrest]
      cases lastTextBlockText rest <;> rfl
    | obj fs =>
      have hnr : optIsStr (dictGet fs "type") "tool_result" = false := hitem
      by_cases htxt : optIsStr (dictGet fs "type") "text" = true
      · simp only [scanUserItems, hnr, htxt, Bool.false_eq_true, if_false, if_true,
          lastTextBlockText]
        rw [ih _ hrest]
        cases lastTextBlockText rest <;> simp [htxt]
      · have htxt2 : optIsStr (dictGet fs "type") "text" = false := by
          revert htxt; cases optIsStr (dictGet fs "type") "text" <;> simp
        simp only [scanUserItems, hnr, htxt2, Bool.false_eq_true, if_false,
          lastTextBlockText]
        rw [ih cur hrest]
        cases lastTextBlockText rest <;> simp [htxt2]
    | null =>
      simp only [scanUserItems, lastTextBlockText]
      rw [ih cur hrest]
      cases lastTextBlockText rest <;> rfl
    | bool b =>
      simp only [scanUserItems, lastTextBlockText]
      rw [ih cur hrest]
      cases lastTextBlockText rest <;> rfl
    | num n =>
      simp only [scanUserItems, lastTextBlockText]
      rw [ih cur hrest]
      cases lastTextBlockText rest <;> rfl
    | arr xs =>
      simp only [scanUserItems, lastTextBlockText]
      rw [ih cur hrest]
      cases lastTextBlockText rest <;> rfl

/-- C3 amended: for a user entry whose message content is a list with no
`tool_result`-typed block, only `text`-typed blocks overwrite the
working content, so the LAST `text`-typed block determines the result
(its `text` field, put through the detailed text recovery); plain
string items are skipped by the scan and never overwrite; when no
`text` block exists at all, the recovery falls back to the
newline-join over the original list (where string items do appear). -/
theorem process_user_entry_last_text_block (entry mfs : List (String × Json))
    (items : List Json) (ts : Option Int)
    (hmsg : dictGet entry "message" = some (.obj mfs))
    (hcont : dictGet mfs "content" = some (.arr items))
    (hnotr : ∀ it ∈ items, isToolResultItem it = false) :
    processUserEntry entry ts =
      (extractTextContentD ((lastTextBlockText items).getD (.arr items))).map
        (fun t => DetailedUserMsg.user t ts) := by
  simp only [processUserEntry, hmsg, dictGetD, hcont, Option.getD]
  rw [scanUserItems_no_toolresult items (.arr items) hnotr]
  rfl

/-- Concrete instance of `process_user_entry_last_text_block`, at the
counterexample input: the last `text` block (`"A"`) wins over the later
plain string `"B"`. -/
theorem process_user_entry_last_text_block_witness :
    (∀ it ∈ [Json.obj [("type", Json.str "text"), ("text", Json.str "A")], Json.str "B"],
      isToolResultItem it = false) ∧
    processUserEntry
      [("message", .obj [("role", .str "user"),
        ("content", .arr [.obj [("type", .str "text"), ("text", .str "A")], .str "B"])])]
      none
      = (extractTextContentD ((lastTextBlockText
          [Json.obj [("type", Json.str "text"), ("text", Json.str "A")], Json.str "B"]).getD
            (.arr [Json.obj [("type", Json.str "text"), ("text", Json.str "A")], Json.str "B"]))).map
          (fun t => DetailedUserMsg.user t none) := by
  have hno : ∀ it ∈ [Json.obj [("type", Json.str "text"), ("text", Json.str "A")], Json.str "B"],
      isToolResultItem it = false := by
    intro it hit
    simp only [List.mem_cons, List.not_mem_nil, or_false] at hit
    rcases hit with rfl | rfl
    · rfl
    · rfl
  exact ⟨hno, process_user_entry_last_text_block _ _ _ none rfl rfl hno⟩

/-- C5 counterexample: the query `"python"` is matched by exact mode for
file `A` (timestamp 1) and by smart mode for `A` and for `B`
(timestamp 9).  The file `A` appears exactly once, but the smart-only
result `B` PRECEDES it in the output, because the composition sorts the
de-duplicated union by timestamp descending. -/
theorem smart_search_smart_only_can_precede :
    smartSearch "python" [⟨"A", some 1⟩] [] [⟨"A", some 5⟩, ⟨"B", some 9⟩] [] false 20 =
      [⟨"B", some 9⟩, ⟨"A", some 1⟩] := by
  rfl

theorem addNewResults_structure (acc new : List SearchResult) :
    ∃ t, addNewResults acc new = acc ++ t ∧
      ∀ r ∈ t, ∀ a ∈ acc, a.file_path ≠ r.file_path := by
  refine ⟨new.filter (fun r => !(acc.any (fun a => a.file_path == r.file_path))), rfl, ?_⟩
  intro r hr a ha
  have hmem := List.of_mem_filter hr
  simp only [Bool.not_eq_eq_eq_not, Bool.not_true, List.any_eq_false] at hmem
  have := hmem a ha
  simpa using this

theorem smartUnion_structure (query : String)
    (exactR regexR smartR semanticR : List SearchResult) (hasSemantic : Bool) :
    ∃ t, smartUnion query exactR regexR smartR semanticR hasSemantic = exactR ++ t ∧
      ∀ r ∈ t, ∀ a ∈ exactR, a.file_path ≠ r.file_path := by
  have hdef : smartUnion query exactR regexR smartR semanticR hasSemantic =
      (if hasSemantic then
        addNewResults (addNewResults
          (if regexCharPresent query then addNewResults exactR regexR else exactR) smartR)
          semanticR
      else addNewResults
          (if regexCharPresent query then addNewResults exactR regexR else exactR) smartR) := by
    by_cases hs : hasSemantic = true <;> simp [smartUnion, hs]
  rw [hdef]
  obtain ⟨t1, ht1, hav1⟩ :
      ∃ t1, (if regexCharPresent query then addNewResults exactR regexR else exactR) =
          exactR ++ t1 ∧ ∀ r ∈ t1, ∀ a ∈ exactR, a.file_path ≠ r.file_path := by
    by_cases hrc : regexCharPresent query = true
    · obtain ⟨t, ht, hav⟩ := addNewResults_structure exactR regexR
      exact ⟨t, by rw [if_pos hrc, ht], hav⟩
    · exact ⟨[], by rw [if_neg hrc]; simp, by simp⟩
  rw [ht1]
  obtain ⟨t2, ht2, hav2⟩ := addNewResults_structure (exactR ++ t1) smartR
  rw [ht2]
  obtain ⟨t3, ht3, hav3⟩ :
      ∃ t3, (if hasSemantic then addNewResults (exactR ++ t1 ++ t2) semanticR
          else exactR ++ t1 ++ t2) = exactR ++ t1 ++ t2 ++ t3 ∧
        ∀ r ∈ t3, ∀ a ∈ exactR ++ t1 ++ t2, a.file_path ≠ r.file_path := by
    by_cases hs : hasSemantic = true
    · obtain ⟨t, ht, hav⟩ := addNewResults_structure (exactR ++ t1 ++ t2) semanticR
      exact ⟨t, by rw [if_pos hs, ht], hav⟩
    · exact ⟨[], by rw [if_neg hs]; simp, by simp⟩
  rw [ht3]
  refine ⟨t1 ++ t2 ++ t3, by simp, ?_⟩
  intro r hr a ha
  simp only [List.mem_append] at hr
  rcases hr with (hr | hr) | hr
  · exact hav1 r hr a ha
  · exact hav2 r hr a (by simp [ha])
  · exact hav3 r hr a (by simp [ha])

theorem append_precedence {α : Type} (l1 l2 : List α) (P Q : α → Prop)
    (h1 : ∀ x ∈ l2, ¬ P x) (h2 : ∀ x ∈ l1, ¬ Q x)
    (i j : Fin (l1 ++ l2).length)
    (hPi : P ((l1 ++ l2).get i)) (hQj : Q ((l1 ++ l2).get j)) : i < j := by
  have hlen : (l1 ++ l2).length = l1.length + l2.length := by simp
  have hi : i.val < l1.length := by
    by_contra hge
    push_neg at hge
    have hb : i.val - l1.length < l2.length := by
      have := i.isLt
      omega
    have hlt : i.val < (l1 ++ l2).length := i.isLt
    have heq2 : (l1 ++ l2)[i.val] = l2[i.val - l1.length] := List.getElem_append_right hge
    have hmem : (l1 ++ l2).get i ∈ l2 := by
      rw [List.get_eq_getElem, heq2]
      exact List.getElem_mem hb
    exact h1 _ hmem hPi
  have hj : l1.length ≤ j.val := by
    by_contra hlt
    push_neg at hlt
    have hjlt : j.val < (l1 ++ l2).length := j.isLt
    have heq2 : (l1 ++ l2)[j.val] = l1[j.val] := List.getElem_append_left hlt
    have hmem : (l1 ++ l2).get j ∈ l1 := by
      rw [List.get_eq_getElem, heq2]
      exact List.getElem_mem hlt
    exact h2 _ hmem hQj
  exact Fin.lt_def.mpr (by omega)

/-- C5 amended: in the de-duplicated union that the smart-search
composition builds (exact results first, later batches filtered by
path), a path returned once by exact mode occurs exactly once, and
every entry carrying it precedes every entry whose path exact mode did
not return (in particular every smart-only match); the FINAL output
then reorders this union by timestamp descending (stable) and truncates
it, which is where the original ordering guarantee breaks. -/
theorem smart_union_dedup_and_precedence (query : String)
    (exactR regexR smartR semanticR : List SearchResult) (hasSemantic : Bool)
    (p q : String)
    (hp : exactR.countP (fun r => r.file_path == p) = 1)
    (hq : ∀ a ∈ exactR, a.file_path ≠ q) :
    (smartUnion query exactR regexR smartR semanticR hasSemantic).countP
        (fun r => r.file_path == p) = 1 ∧
    ∀ i j : Fin (smartUnion query exactR regexR smartR semanticR hasSemantic).length,
      ((smartUnion query exactR regexR smartR semanticR hasSemantic).get i).file_path = p →
      ((smartUnion query exactR regexR smartR semanticR hasSemantic).get j).file_path = q →
      i < j := by
  obtain ⟨t, hu, hav⟩ :=
    smartUnion_structure query exactR regexR smartR semanticR hasSemantic
  have hpmem : ∃ a ∈ exactR, a.file_path = p := by
    have hpos : 0 < exactR.countP (fun r => r.file_path == p) := by omega
    obtain ⟨a, ha, hap⟩ := List.countP_pos_iff.mp hpos
    exact ⟨a, ha, by simpa using hap⟩
  have htzero : t.countP (fun r => r.file_path == p) = 0 := by
    apply List.countP_eq_zero.mpr
    intro r hr
    obtain ⟨a, ha, hap⟩ := hpmem
    have hne := hav r hr a ha
    have hrp : r.file_path ≠ p := by
      rw [← hap]
      exact fun h => hne h.symm
    simp only [beq_eq_false_iff_ne] at hrp ⊢
    simpa using hrp
  constructor
  · rw [hu, List.countP_append, hp, htzero]
  · rw [hu]
    intro i j hpi hqj
    exact append_precedence exactR t (fun r => r.file_path = p) (fun r => r.file_path = q)
      (by
        intro x hx hxp
        obtain ⟨a, ha, hap⟩ := hpmem
        exact hav x hx a ha (by rw [hap, hxp]))
      (fun x hx => hq x hx) i j hpi hqj

/-- Concrete instance of `smart_union_dedup_and_precedence`, at the
counterexample input: in the union (before sorting) the shared path `A`
occurs once and precedes the smart-only path `B`. -/
theorem smart_union_dedup_and_precedence_witness :
    ([(⟨"A", some 1⟩ : SearchResult)].countP (fun r => r.file_path == "A") = 1) ∧
    (smartUnion "python" [⟨"A", some 1⟩] [] [⟨"A", some 5⟩, ⟨"B", some 9⟩] [] false).countP
        (fun r => r.file_path == "A") = 1 ∧
    ∀ i j : Fin (smartUnion "python" [⟨"A", some 1⟩] [] [⟨"A", some 5⟩, ⟨"B", some 9⟩] []
        false).length,
      ((smartUnion "python" [⟨"A", some 1⟩] [] [⟨"A", some 5⟩, ⟨"B", some 9⟩] []
        false).get i).file_path = "A" →
      ((smartUnion "python" [⟨"A", some 1⟩] [] [⟨"A", some 5⟩, ⟨"B", some 9⟩] []
        false).get j).file_path = "B" →
      i < j := by
  refine ⟨by decide, ?_⟩
  exact smart_union_dedup_and_precedence "python" [⟨"A", some 1⟩] []
    [⟨"A", some 5⟩, ⟨"B", some 9⟩] [] false "A" "B" (by decide)
    (by intro a ha; simp only [List.mem_singleton] at ha; subst ha; decide)

/-- C6: an unknown (lower-cased) format raises a ValueError naming the
requested format and listing the four available keys, and no file is
written; a known format dispatches to its renderer and returns the
written path. -/
theorem export_manager_dispatch (format today sessionId : String) :
    (pyLower format ∉ exporterKeys →
      exportManagerExport format today sessionId =
        .error ("Unsupported format: " ++ format ++
          ". Available: markdown, md, json, html")) ∧
    (pyLower format ∈ exporterKeys →
      exportManagerExport format today sessionId =
        .ok (rendererFilename (pyLower format) today sessionId)) := by
  constructor
  · intro h
    have hmsg : ("Unsupported format: " ++ format ++ ". Available: " ++
        String.intercalate ", " exporterKeys) =
        ("Unsupported format: " ++ format ++ ". Available: markdown, md, json, html") := by
      rw [String.append_assoc]
      rfl
    simp [exportManagerExport, h, hmsg]
  · intro h
    simp [exportManagerExport, h]

/-- Concrete instance of `export_manager_dispatch`: format `yaml` is
rejected with the full message; format `JSON` (case-insensitively)
dispatches to the JSON renderer. -/
theorem export_manager_dispatch_witness :
    (pyLower "yaml" ∉ exporterKeys ∧
      exportManagerExport "yaml" "2025-06-01" "abcdefgh12345" =
        .error "Unsupported format: yaml. Available: markdown, md, json, html") ∧
    (pyLower "JSON" ∈ exporterKeys ∧
      exportManagerExport "JSON" "2025-06-01" "abcdefgh12345" =
        .ok (rendererFilename (pyLower "JSON") "2025-06-01" "abcdefgh12345")) := by
  constructor
  · refine ⟨by decide, ?_⟩
    have h := (export_manager_dispatch "yaml" "2025-06-01" "abcdefgh12345").1 (by decide)
    simpa using h
  · exact ⟨by decide, (export_manager_dispatch "JSON" "2025-06-01" "abcdefgh12345").2 (by decide)⟩

theorem tsFold_acc (l : List Int) (s e : Int) :
    tsFold l (some s) (some e) = (some (l.foldl min s), some (l.foldl max e)) := by
  induction l generalizing s e with
  | nil => rfl
  | cons t rest ih =>
    simp only [tsFold, List.foldl_cons]
    have hmin : (if t < s then some t else some s) = some (min s t) := by
      rcases le_or_lt s t with h | h
      · rw [if_neg (by omega), min_eq_left h]
      · rw [if_pos h, min_eq_right (le_of_lt h)]
    have hmax : (if t > e then some t else some e) = some (max e t) := by
      rcases le_or_lt t e with h | h
      · rw [if_neg (by omega), max_eq_left h]
      · rw [if_pos h, max_eq_right (le_of_lt h)]
    rw [hmin, hmax, ih]

theorem tsFold_min_max (l : List Int) : tsFold l none none = (l.min?, l.max?) := by
  cases l with
  | nil => rfl
  | cons t rest =>
    simp only [tsFold]
    rw [tsFold_acc]
    rfl

/-- C7: `messages_per_hour` equals total message count divided by the
duration in hours whenever the parseable timestamps have a minimum and
maximum with strictly positive difference, and equals 0 when the
difference is zero or when no parseable timestamp exists. -/
theorem messages_per_hour_spec (parse : String → Option Int)
    (conversation : List (List (String × Json))) (session_id : String) :
    (∀ a b, (parsedTimestamps parse conversation).min? = some a →
      (parsedTimestamps parse conversation).max? = some b → 0 < b - a →
      (analyzeConversation parse conversation session_id).messages_per_hour =
        (conversation.length : Rat) / (((b - a : Int) : Rat) / 3600)) ∧
    (∀ a b, (parsedTimestamps parse conversation).min? = some a →
      (parsedTimestamps parse conversation).max? = some b → b - a = 0 →
      (analyzeConversation parse conversation session_id).messages_per_hour = 0) ∧
    (parsedTimestamps parse conversation = [] →
      (analyzeConversation parse conversation session_id).messages_per_hour = 0) := by
  by_cases hemp : conversation.isEmpty = true
  · have hstats : analyzeConversation parse conversation session_id =
        emptyStats session_id := by
      simp [analyzeConversation, hemp]
    have hts : parsedTimestamps parse conversation = [] := by
      rw [List.isEmpty_iff] at hemp
      simp [parsedTimestamps, hemp]
    refine ⟨?_, ?_, ?_⟩
    · intro a b ha hb hpos
      rw [hts] at ha
      simp [List.min?] at ha
    · intro a b ha hb hz
      rw [hts] at ha
      simp [List.min?] at ha
    · intro _
      rw [hstats]
      rfl
  · have hfold := tsFold_min_max (parsedTimestamps parse conversation)
    refine ⟨?_, ?_, ?_⟩
    · intro a b ha hb hpos
      simp only [analyzeConversation, hemp, Bool.false_eq_true, if_false, hfold, ha, hb,
        hpos, if_pos]
    · intro a b ha hb hz
      simp only [analyzeConversation, hemp, Bool.false_eq_true, if_false, hfold, ha, hb]
      rw [if_neg (by omega)]
    · intro hts
      simp only [analyzeConversation, hemp, Bool.false_eq_true, if_false, hfold, hts]
      rfl

/-- Concrete instance of `messages_per_hour_spec`: ten messages spanning
exactly two hours (7200 seconds) give `10 / (7200/3600)` messages per
hour, and a single-timestamp conversation gives 0. -/
theorem messages_per_hour_spec_witness :
    ((parsedTimestamps (fun s => if s = "t0" then some 0 else if s = "t1" then some 7200
        else none) [[("role", Json.str "user"), ("timestamp", Json.str "t0")],
        [("role", Json.str "assistant"), ("timestamp", Json.str "t1")]]).min? = some 0 ∧
      (analyzeConversation (fun s => if s = "t0" then some 0 else if s = "t1" then some 7200
        else none) [[("role", Json.str "user"), ("timestamp", Json.str "t0")],
        [("role", Json.str "assistant"), ("timestamp", Json.str "t1")]]
        "sid").messages_per_hour = ((2 : Rat) / (((7200 : Int) : Rat) / 3600))) ∧
    ((analyzeConversation (fun s => if s = "t0" then some 0 else none)
        [[("role", Json.str "user"), ("timestamp", Json.str "t0")],
         [("role", Json.str "assistant"), ("timestamp", Json.str "t0")]]
        "sid").messages_per_hour = 0) := by
  constructor
  · refine ⟨rfl, ?_⟩
    have h := (messages_per_hour_spec
      (fun s => if s = "t0" then some 0 else if s = "t1" then some 7200 else none)
      [[("role", Json.str "user"), ("timestamp", Json.str "t0")],
       [("role", Json.str "assistant"), ("timestamp", Json.str "t1")]] "sid").1
      0 7200 rfl rfl (by omega)
    simpa using h
  · have h := (messages_per_hour_spec (fun s => if s = "t0" then some 0 else none)
      [[("role", Json.str "user"), ("timestamp", Json.str "t0")],
       [("role", Json.str "assistant"), ("timestamp", Json.str "t0")]] "sid").2.1
      0 0 rfl rfl (by omega)
    simpa using h

theorem countP_disjoint_le {α : Type} (l : List α) (p q : α → Bool)
    (h : ∀ a ∈ l, p a = true → q a = false) :
    l.countP p + l.countP q ≤ l.length := by
  induction l with
  | nil => simp
  | cons a t ih =>
    have ht : ∀ x ∈ t, p x = true → q x = false :=
      fun x hx => h x (List.mem_cons_of_mem a hx)
    have hone : (if p a then 1 else 0) + (if q a then 1 else 0) ≤ 1 := by
      by_cases hp : p a = true
      · have hq := h a (List.mem_cons_self a t) hp
        simp [hp, hq]
      · simp only [Bool.not_eq_true] at hp
        simp [hp]
        split <;> omega
    simp only [List.countP_cons, List.length_cons]
    have := ih ht
    by_cases hp : p a = true <;> by_cases hq : q a = true <;>
      simp only [hp, hq] at hone ⊢ <;> simp at hone ⊢ <;> omega

theorem foldl_max_ge_init (t : List Nat) (a : Nat) : a ≤ t.foldl max a := by
  induction t generalizing a with
  | nil => exact le_refl a
  | cons x rest ih =>
    calc a ≤ max a x := le_max_left a x
    _ ≤ rest.foldl max (max a x) := ih (max a x)

theorem foldl_max_ge_mem (t : List Nat) (a x : Nat) (hx : x ∈ t) : x ≤ t.foldl max a := by
  induction t generalizing a with
  | nil => simp at hx
  | cons y rest ih =>
    rcases List.mem_cons.mp hx with rfl | hmem
    · calc x ≤ max a x := le_max_right a x
      _ ≤ rest.foldl max (max a x) := foldl_max_ge_init rest (max a x)
    · exact ih (max a y) hmem

theorem pyMaxNat_ge (l : List Nat) (x : Nat) (hx : x ∈ l) : x ≤ pyMaxNat l := by
  cases l with
  | nil => simp at hx
  | cons a t =>
    rcases List.mem_cons.mp hx with rfl | hmem
    · exact foldl_max_ge_init t x
    · exact foldl_max_ge_mem t a x hmem

theorem foldl_min_le_init (t : List Nat) (a : Nat) : t.foldl min a ≤ a := by
  induction t generalizing a with
  | nil => exact le_refl a
  | cons x rest ih =>
    calc rest.foldl min (min a x) ≤ min a x := ih (min a x)
    _ ≤ a := min_le_left a x

theorem foldl_min_le_mem (t : List Nat) (a x : Nat) (hx : x ∈ t) : t.foldl min a ≤ x := by
  induction t generalizing a with
  | nil => simp at hx
  | cons y rest ih =>
    rcases List.mem_cons.mp hx with rfl | hmem
    · calc rest.foldl min (min a x) ≤ min a x := foldl_min_le_init rest (min a x)
      _ ≤ x := min_le_right a x
    · exact ih (min a y) hmem

theorem pyMinNat_le (l : List Nat) (x : Nat) (hx : x ∈ l) : pyMinNat l ≤ x := by
  cases l with
  | nil => simp at hx
  | cons a t =>
    rcases List.mem_cons.mp hx with rfl | hmem
    · exact foldl_min_le_init t x
    · exact foldl_min_le_mem t a x hmem

/-- C9: the stats record satisfies `total_messages = len(conversation)`,
`user_messages + assistant_messages ≤ total_messages` (other roles still
count toward the total), and, when at least one message has
string-valued content, `shortest ≤ average ≤ longest`. -/
theorem analyze_conversation_invariants (parse : String → Option Int)
    (conversation : List (List (String × Json))) (session_id : String) :
    (analyzeConversation parse conversation session_id).total_messages =
      conversation.length ∧
    (analyzeConversation parse conversation session_id).user_messages +
      (analyzeConversation parse conversation session_id).assistant_messages ≤
      (analyzeConversation parse conversation session_id).total_messages ∧
    (stringContents conversation ≠ [] →
      ((analyzeConversation parse conversation session_id).shortest_message : Rat) ≤
        (analyzeConversation parse conversation session_id).average_message_length ∧
      (analyzeConversation parse conversation session_id).average_message_length ≤
        ((analyzeConversation parse conversation session_id).longest_message : Rat)) := by
  by_cases hemp : conversation.isEmpty = true
  · have h1 : conversation = [] := List.isEmpty_iff.mp hemp
    subst h1
    refine ⟨rfl, by simp [analyzeConversation, emptyStats], ?_⟩
    intro hne
    exact absurd rfl hne
  · have hdisj : ∀ m ∈ conversation, optIsStr (dictGet m "role") "user" = true →
        optIsStr (dictGet m "role") "assistant" = false := by
      intro m _ hu
      rcases hr : dictGet m "role" with _ | j
      · rw [hr] at hu
        simp [optIsStr] at hu
      · rw [hr] at hu
        cases j with
        | str t =>
          simp only [optIsStr, decide_eq_true_eq] at hu
          subst hu
          simp [optIsStr]
        | null => simp [optIsStr] at hu
        | bool b => simp [optIsStr] at hu
        | num n => simp [optIsStr] at hu
        | arr xs => simp [optIsStr] at hu
        | obj fs => simp [optIsStr] at hu
    refine ⟨by simp [analyzeConversation, hemp], ?_, ?_⟩
    · simp only [analyzeConversation, hemp, Bool.false_eq_true, if_false]
      exact countP_disjoint_le conversation _ _ hdisj
    · intro hne
      have hlemp : (stringContents conversation).map String.length ≠ [] := by
        simpa using hne
      have hlempb : ((stringContents conversation).map String.length).isEmpty = false := by
        rw [List.isEmpty_eq_false_iff_exists_mem]
        rcases List.exists_mem_of_ne_nil _ hlemp with ⟨x, hx⟩
        exact ⟨x, hx⟩
      set lengths := (stringContents conversation).map String.length with hldef
      have hlen_pos : 0 < lengths.length := by
        cases hl : lengths with
        | nil => exact absurd hl hlemp
        | cons a t => simp
      have hlen_posQ : (0 : Rat) < (lengths.length : Rat) := by
        exact_mod_cast hlen_pos
      have hsum_le : lengths.sum ≤ lengths.length * pyMaxNat lengths := by
        calc lengths.sum ≤ lengths.length • pyMaxNat lengths :=
              List.sum_le_card_nsmul lengths (pyMaxNat lengths)
                (fun x hx => pyMaxNat_ge lengths x hx)
        _ = lengths.length * pyMaxNat lengths := nsmul_eq_mul _ _
      have hle_sum : lengths.length * pyMinNat lengths ≤ lengths.sum := by
        calc lengths.length * pyMinNat lengths
            = lengths.length • pyMinNat lengths := (nsmul_eq_mul _ _).symm
        _ ≤ lengths.sum :=
              List.card_nsmul_le_sum lengths (pyMinNat lengths)
                (fun x hx => pyMinNat_le lengths x hx)
      simp only [analyzeConversation, hemp, Bool.false_eq_true, if_false, ← hldef,
        hlempb]
      constructor
      · rw [le_div_iff₀ hlen_posQ]
        calc ((pyMinNat lengths : Nat) : Rat) * (lengths.length : Rat)
            = ((pyMinNat lengths * lengths.length : Nat) : Rat) := by push_cast; ring
        _ ≤ ((lengths.sum : Nat) : Rat) := by
              exact_mod_cast (by
                rw [Nat.mul_comm]
                exact hle_sum : pyMinNat lengths * lengths.length ≤ lengths.sum)
      · rw [div_le_iff₀ hlen_posQ]
        calc ((lengths.sum : Nat) : Rat)
            ≤ ((lengths.length * pyMaxNat lengths : Nat) : Rat) := by exact_mod_cast hsum_le
        _ = ((pyMaxNat lengths : Nat) : Rat) * (lengths.length : Rat) := by push_cast; ring

/-- Concrete instance of `analyze_conversation_invariants`, on a
two-message conversation with string contents. -/
theorem analyze_conversation_invariants_witness :
    stringContents [[("role", Json.str "user"), ("content", Json.str "hi")],
      [("role", Json.str "assistant"), ("content", Json.str "hello there")]] ≠ [] ∧
    (((analyzeConversation (fun _ => none)
        [[("role", Json.str "user"), ("content", Json.str "hi")],
         [("role", Json.str "assistant"), ("content", Json.str "hello there")]]
        "sid").shortest_message : Rat) ≤
      (analyzeConversation (fun _ => none)
        [[("role", Json.str "user"), ("content", Json.str "hi")],
         [("role", Json.str "assistant"), ("content", Json.str "hello there")]]
        "sid").average_message_length ∧
      (analyzeConversation (fun _ => none)
        [[("role", Json.str "user"), ("content", Json.str "hi")],
         [("role", Json.str "assistant"), ("content", Json.str "hello there")]]
        "sid").average_message_length ≤
      ((analyzeConversation (fun _ => none)
        [[("role", Json.str "user"), ("content", Json.str "hi")],
         [("role", Json.str "assistant"), ("content", Json.str "hello there")]]
        "sid").longest_message : Rat)) := by
  have hne : stringContents [[("role", Json.str "user"), ("content", Json.str "hi")],
      [("role", Json.str "assistant"), ("content", Json.str "hello there")]] ≠ [] := by
    intro h
    rw [show stringContents [[("role", Json.str "user"), ("content", Json.str "hi")],
      [("role", Json.str "assistant"), ("content", Json.str "hello there")]] =
      ["hi", "hello there"] from rfl] at h
    exact List.cons_ne_nil _ _ h
  exact ⟨hne,
    (analyze_conversation_invariants (fun _ => none)
      [[("role", Json.str "user"), ("content", Json.str "hi")],
       [("role", Json.str "assistant"), ("content", Json.str "hello there")]]
      "sid").2.2 hne⟩
